import Mathlib

set_option maxHeartbeats 1000000

/-!
Verification development for the rate-limited dispatch engine of the
clotic repository: the data model (src/types.ts), the configuration
reader (src/config.ts), the per-chat rate limiter (src/rateLimiter.ts),
the store queries and single-row updates it uses (src/db.ts), and one
tick of the dispatch loop (src/processor.ts, processMessages).

Numbers: all timestamps are epoch milliseconds, modelled as Nat; the
configured ceilings are JavaScript numbers that can be negative, so they
are modelled as Int.  The persistent store (a SQL table of message rows)
is modelled as a list of records in table order; each UPDATE statement
becomes a map over that list guarded by the row id.
-/

namespace Clotic

/-- Chat types from src/types.ts: "private" | "group" | "supergroup" | "channel".
The constructor for "private" is named privateChat because private is a
Lean keyword. -/
inductive ChatType
  | privateChat
  | group
  | supergroup
  | channel
deriving DecidableEq, Repr

/-- Media types from src/types.ts. -/
inductive MediaType
  | text
  | photo
  | video
  | document
  | audio
  | sticker
deriving DecidableEq, Repr

/-- MessageRecord from src/types.ts.  The id is optional in the
TypeScript interface only because it is assigned by the database on
insert; every row read back from the store carries one, and the dispatch
engine only ever handles stored rows, so it is modelled as a plain Nat. -/
structure MessageRecord where
  id : Nat
  chatId : String
  chatType : ChatType
  userId : String
  content : String
  mediaType : MediaType
  fileReference : Option String
  processed : Bool
  attempts : Nat
  processingDate : Nat
  createdAt : Nat
  prepared : Bool
deriving DecidableEq, Repr

/-- Environment bindings from src/types.ts restricted to the fields the
dispatch engine reads; the rate limit variables are raw strings, parsed
by getConfig. -/
structure Env where
  TELEGRAM_API_TOKEN : String
  TELEGRAM_API_URL : String
  RATE_LIMIT_PRIVATE : String
  RATE_LIMIT_CHANNEL : String
  RATE_LIMIT_GLOBAL : String
deriving Repr

/-- Config from src/config.ts. -/
structure Config where
  TELEGRAM_API_TOKEN : String
  TELEGRAM_API_URL : String
  RATE_LIMIT_PRIVATE : Int
  RATE_LIMIT_CHANNEL : Int
  RATE_LIMIT_GLOBAL : Int
deriving Repr

/-- Value of a list of decimal digit characters. -/
def digitsValue (ds : List Char) : Nat :=
  ds.foldl (fun acc c => acc * 10 + (c.toNat - 48)) 0

/-- Longest leading run of decimal digits, or none when there is no digit. -/
def leadingNat (cs : List Char) : Option Nat :=
  let ds := cs.takeWhile Char.isDigit
  if ds.isEmpty then none else some (digitsValue ds)

/-- Drop the leading whitespace characters. -/
def skipWhitespace : List Char → List Char
  | [] => []
  | c :: rest => if c.isWhitespace then skipWhitespace rest else c :: rest

/-- Model of JavaScript parseInt(s, 10): skip leading whitespace, accept
an optional sign, read the longest leading digit run and ignore any
trailing characters; NaN (modelled as none) when no digit is found. -/
def parseIntBase10 (s : String) : Option Int :=
  match skipWhitespace s.toList with
  | '-' :: rest => (leadingNat rest).map (fun n => -(n : Int))
  | '+' :: rest => (leadingNat rest).map (fun n => (n : Int))
  | rest => (leadingNat rest).map (fun n => (n : Int))

/-- Model of the JavaScript expression x || d where x is the result of
parseInt: both NaN (none) and 0 are falsy, so they yield the default d;
every other number, including negative ones, passes through. -/
def jsOrNum (x : Option Int) (d : Int) : Int :=
  match x with
  | none => d
  | some v => if v = 0 then d else v

/-- getConfig from src/config.ts: each ceiling is parseInt(env.X, 10) || default,
with defaults 1 (private), 20 (channel), 30 (global). -/
def getConfig (env : Env) : Config :=
  { TELEGRAM_API_TOKEN := env.TELEGRAM_API_TOKEN
    TELEGRAM_API_URL := env.TELEGRAM_API_URL
    RATE_LIMIT_PRIVATE := jsOrNum (parseIntBase10 env.RATE_LIMIT_PRIVATE) 1
    RATE_LIMIT_CHANNEL := jsOrNum (parseIntBase10 env.RATE_LIMIT_CHANNEL) 20
    RATE_LIMIT_GLOBAL := jsOrNum (parseIntBase10 env.RATE_LIMIT_GLOBAL) 30 }

/-- Group of messages sharing a chat id, in input order: the contents of
groups[chatId] after the grouping loop of applyRateLimit
(src/rateLimiter.ts lines 28 to 34). -/
def groupOf (messages : List MessageRecord) (chatId : String) : List MessageRecord :=
  messages.filter (fun m => m.chatId == chatId)

/-- Worker for chatKeys: collect the chat ids in first-occurrence order,
skipping the ones already seen. -/
def chatKeysAux (seen : List String) : List MessageRecord → List String
  | [] => []
  | m :: rest =>
    if seen.contains m.chatId then chatKeysAux seen rest
    else m.chatId :: chatKeysAux (m.chatId :: seen) rest

/-- Keys of the groups object of applyRateLimit in first-occurrence
order, the order in which the for..in loop of src/rateLimiter.ts visits
them (string keys in insertion order). -/
def chatKeys (messages : List MessageRecord) : List String :=
  chatKeysAux [] messages

/-- Stable sort ascending by processingDate: group.sort((a, b) =>
a.processingDate - b.processingDate) at src/rateLimiter.ts line 45
(JavaScript Array.sort is stable). -/
def sortByDue (l : List MessageRecord) : List MessageRecord :=
  l.insertionSort (fun a b => a.processingDate ≤ b.processingDate)

/-- Boundary index shared by group.slice(0, limit) and group.slice(limit)
for an integer limit, following JavaScript slice semantics: a
nonnegative limit is clamped to the length, a negative limit counts from
the end of the array (clamped at 0). -/
def jsSliceIndex (limit : Int) (len : Nat) : Nat :=
  if 0 ≤ limit then min limit.toNat len else len - (-limit).toNat

/-- Per-group rate limit of applyRateLimit (src/rateLimiter.ts lines 40
and 41): the chat type of the first message of the group, read before
the sort, chooses between the channel and the private ceiling. -/
def chatLimit (config : Config) (group : List MessageRecord) : Int :=
  match group with
  | [] => config.RATE_LIMIT_PRIVATE
  | m :: _ => if m.chatType = ChatType.channel then config.RATE_LIMIT_CHANNEL
              else config.RATE_LIMIT_PRIVATE

/-- The allowed part of one group: group.slice(0, limit) after the sort
(src/rateLimiter.ts line 48). -/
def allowedOf (config : Config) (group : List MessageRecord) : List MessageRecord :=
  (sortByDue group).take (jsSliceIndex (chatLimit config group) group.length)

/-- The extra part of one group: group.slice(limit) after the sort
(src/rateLimiter.ts line 49). -/
def extraOf (config : Config) (group : List MessageRecord) : List MessageRecord :=
  (sortByDue group).drop (jsSliceIndex (chatLimit config group) group.length)

/-- Result shape of applyRateLimit. -/
structure RateLimitResult where
  selected : List MessageRecord
  deferred : List MessageRecord
deriving DecidableEq, Repr

/-- applyRateLimit from src/rateLimiter.ts: group the batch by chatId,
and for each group in key order push its allowed part onto selected and
its extra part onto deferred. -/
def applyRateLimit (messages : List MessageRecord) (env : Env) : RateLimitResult :=
  let config := getConfig env
  { selected := (chatKeys messages).flatMap (fun c => allowedOf config (groupOf messages c))
    deferred := (chatKeys messages).flatMap (fun c => extraOf config (groupOf messages c)) }

/-- Generic single-row UPDATE: apply f to the row whose id matches,
leave every other row unchanged (UPDATE messages SET ... WHERE id = ?). -/
def updateRow (store : List MessageRecord) (id : Nat) (f : MessageRecord → MessageRecord) :
    List MessageRecord :=
  store.map (fun m => if m.id = id then f m else m)

/-- Database.updateMessageProcessingDate from src/db.ts: UPDATE messages
SET processingDate = ? WHERE id = ?. -/
def updateMessageProcessingDate (store : List MessageRecord) (id : Nat) (newProcessingDate : Nat) :
    List MessageRecord :=
  updateRow store id (fun m => { m with processingDate := newProcessingDate })

/-- Database.markMessageProcessed from src/db.ts: UPDATE messages SET
processed = 1 WHERE id = ?. -/
def markMessageProcessed (store : List MessageRecord) (id : Nat) : List MessageRecord :=
  updateRow store id (fun m => { m with processed := true })

/-- Database.updateMessageRetry from src/db.ts: UPDATE messages SET
attempts = ?, processingDate = ? WHERE id = ?. -/
def updateMessageRetry (store : List MessageRecord) (id : Nat) (attempts : Nat)
    (newProcessingDate : Nat) : List MessageRecord :=
  updateRow store id (fun m => { m with attempts := attempts, processingDate := newProcessingDate })

/-- SQL LIMIT with an integer argument, SQLite semantics: a negative
limit means no limit at all. -/
def sqlLimit (limit : Int) (rows : List MessageRecord) : List MessageRecord :=
  if 0 ≤ limit then rows.take limit.toNat else rows

/-- Database.getUnprocessedMessages from src/db.ts: SELECT rows with
processed = 0, prepared = 1 and processingDate <= currentTime, ordered
by processingDate ascending (ties in table order), capped at limit. -/
def getUnprocessedMessages (store : List MessageRecord) (currentTime : Nat) (limit : Int) :
    List MessageRecord :=
  sqlLimit limit (sortByDue (store.filter
    (fun m => !m.processed && m.prepared && m.processingDate ≤ currentTime)))

/-- Database.getUnprocessedMessagesExcluding from src/db.ts: the same
query with an additional id NOT IN (excludedIds) clause; the clause is
only emitted for a nonempty exclusion list, which is equivalent to
always filtering by non-membership. -/
def getUnprocessedMessagesExcluding (store : List MessageRecord) (currentTime : Nat)
    (excludedIds : List Nat) (limit : Int) : List MessageRecord :=
  sqlLimit limit (sortByDue (store.filter
    (fun m => !m.processed && m.prepared && m.processingDate ≤ currentTime
      && !(excludedIds.contains m.id))))

/-- One database write issued by processMessages, in the order the code
issues them. -/
inductive DbWrite
  | deferDate (id : Nat) (newProcessingDate : Nat)
  | markProcessed (id : Nat)
  | retry (id : Nat) (attempts : Nat) (newProcessingDate : Nat)
deriving DecidableEq, Repr

/-- Apply one write to the store. -/
def applyWrite (store : List MessageRecord) : DbWrite → List MessageRecord
  | .deferDate id d => updateMessageProcessingDate store id d
  | .markProcessed id => markMessageProcessed store id
  | .retry id a d => updateMessageRetry store id a d

/-- Apply a list of writes in order. -/
def applyWrites (store : List MessageRecord) : List DbWrite → List MessageRecord
  | [] => store
  | w :: ws => applyWrites (applyWrite store w) ws

/-- The deferral loop of processMessages (src/processor.ts lines 67 to
69 and 78 to 80): for each deferred message write processingDate :=
msg.processingDate + 1000, where msg.processingDate is the value carried
by the in-memory record.  Returns the updated store and the writes
issued. -/
def deferAll (store : List MessageRecord) : List MessageRecord →
    List MessageRecord × List DbWrite
  | [] => (store, [])
  | m :: rest =>
    let store' := updateMessageProcessingDate store m.id (m.processingDate + 1000)
    let d := deferAll store' rest
    (d.1, DbWrite.deferDate m.id (m.processingDate + 1000) :: d.2)

/-- State threaded by the fill-up loop of processMessages (src/processor.ts
lines 73 to 81): the selected list, the store, the writes issued so far,
the number of executed loop bodies, and whether the loop exited through
its own condition rather than by exhausting the fuel bound. -/
structure FillUpState where
  selected : List MessageRecord
  store : List MessageRecord
  trace : List DbWrite
  rounds : Nat
  completed : Bool
deriving Repr

/-- The fill-up loop of processMessages: while selected.length <
RATE_LIMIT_GLOBAL, query additional eligible messages excluding
selectedIds (the snapshot of the ids selected by the initial rate-limiter
pass, never updated by the loop), stop on an empty result, otherwise
rate-limit the additional batch, append its selected part and defer its
deferred part.  The source loop is an unbounded while; fuel bounds the
recursion, and completed records that the loop exited by its own
condition so that a sufficiently fueled run is the loop's semantics. -/
def fillUp (env : Env) (currentTime : Nat) (selectedIds : List Nat) :
    Nat → List MessageRecord → List MessageRecord → FillUpState
  | 0, selected, store => ⟨selected, store, [], 0, false⟩
  | fuel + 1, selected, store =>
    let config := getConfig env
    if (selected.length : Int) < config.RATE_LIMIT_GLOBAL then
      let additional := getUnprocessedMessagesExcluding store currentTime selectedIds
        (config.RATE_LIMIT_GLOBAL - (selected.length : Int))
      if additional.length = 0 then ⟨selected, store, [], 0, true⟩
      else
        let r := applyRateLimit additional env
        let d := deferAll store r.deferred
        let out := fillUp env currentTime selectedIds fuel (selected ++ r.selected) d.1
        ⟨out.selected, out.store, d.2 ++ out.trace, out.rounds + 1, out.completed⟩
    else ⟨selected, store, [], 0, true⟩

/-- Exponential backoff of processMessages (src/processor.ts line 99):
Math.min(Math.pow(2, newAttempts), 256) minutes. -/
def backoffMinutes (newAttempts : Nat) : Nat :=
  min (2 ^ newAttempts) 256

/-- The outcome-processing loop of processMessages (src/processor.ts
lines 92 to 103), recursing over the send results in order (the result
list of Promise.all preserves the order of selected).  index is the
position in selected, nowAt gives the value Date.now() returns when the
failure branch for that position runs.  Success marks the message
processed; failure writes attempts := msg.attempts + 1 and
processingDate := now + backoff minutes in milliseconds. -/
def applyOutcomes (nowAt : Nat → Nat) :
    Nat → List MessageRecord → List (MessageRecord × Bool) →
    List MessageRecord × List DbWrite
  | _, store, [] => (store, [])
  | index, store, (m, success) :: rest =>
    if success then
      let store' := markMessageProcessed store m.id
      let d := applyOutcomes nowAt (index + 1) store' rest
      (d.1, DbWrite.markProcessed m.id :: d.2)
    else
      let newAttempts := m.attempts + 1
      let newProcessingDate := nowAt index + backoffMinutes newAttempts * 60000
      let store' := updateMessageRetry store m.id newAttempts newProcessingDate
      let d := applyOutcomes nowAt (index + 1) store' rest
      (d.1, DbWrite.retry m.id newAttempts newProcessingDate :: d.2)

/-- Result of one tick: the final store, the messages handed to the
transport (the selected list, in send order), the number of fill-up loop
bodies executed, whether the fill-up loop terminated within its fuel,
and every database write of the tick in issue order. -/
structure TickResult where
  store : List MessageRecord
  selected : List MessageRecord
  rounds : Nat
  completed : Bool
  trace : List DbWrite
deriving Repr

/-- One iteration of the while loop of processMessages (src/processor.ts
lines 54 to 107), with the two external effects abstracted as oracles:
sendOk index msg is the success flag of the transport send for the
message at that position of selected, and nowAt index is the Date.now()
value observed when that position's failure branch runs.  fuel bounds
the fill-up loop as in fillUp. -/
def processTick (env : Env) (store : List MessageRecord) (currentTime : Nat)
    (sendOk : Nat → MessageRecord → Bool) (nowAt : Nat → Nat) (fuel : Nat) : TickResult :=
  let config := getConfig env
  let batch := getUnprocessedMessages store currentTime config.RATE_LIMIT_GLOBAL
  if batch.length = 0 then ⟨store, [], 0, true, []⟩
  else
    let r := applyRateLimit batch env
    let d := deferAll store r.deferred
    let selectedIds := r.selected.map (fun m => m.id)
    let fill := fillUp env currentTime selectedIds fuel r.selected d.1
    let outcomes := fill.selected.enum.map (fun p => (p.2, sendOk p.1 p.2))
    let o := applyOutcomes nowAt 0 fill.store outcomes
    ⟨o.1, fill.selected, fill.rounds, fill.completed, d.2 ++ fill.trace ++ o.2⟩

/-- Delay computed by sleepUntilNextSecond (src/processor.ts lines 27 to
31): 1000 - (now % 1000) milliseconds. -/
def sleepUntilNextSecondDelay (now : Nat) : Nat :=
  1000 - now % 1000

/-- Lookup of the row with a given id, the row a WHERE id = ? clause
addresses. -/
def findMsg (store : List MessageRecord) (id : Nat) : Option MessageRecord :=
  store.find? (fun m => m.id == id)

/-- Checker for the terminal-state invariant: an attempts/processingDate
mutation (retry or deferral) may only target a row whose processed flag
is false at the time of the write; marking processed is always allowed. -/
def writeTargetsUnprocessed (store : List MessageRecord) : DbWrite → Bool
  | .deferDate id _ =>
    match findMsg store id with
    | some m => !m.processed
    | none => true
  | .retry id _ _ =>
    match findMsg store id with
    | some m => !m.processed
    | none => true
  | .markProcessed _ => true

/-- Replay a trace from a starting store and check every write against
the terminal-state invariant. -/
def mutationsRespectTerminal (store : List MessageRecord) : List DbWrite → Bool
  | [] => true
  | w :: ws => writeTargetsUnprocessed store w && mutationsRespectTerminal (applyWrite store w) ws

/-- Checker for the deferral increment: a deferral write must set the
row's processingDate to its current value plus exactly one tick
interval (1000 ms); other writes pass. -/
def deferAddsOneTick (store : List MessageRecord) : DbWrite → Bool
  | .deferDate id d =>
    match findMsg store id with
    | some m => d == m.processingDate + 1000
    | none => false
  | _ => true

/-- Replay a trace from a starting store and check every deferral write
adds exactly one tick interval. -/
def defersAddOneTick (store : List MessageRecord) : List DbWrite → Bool
  | [] => true
  | w :: ws => deferAddsOneTick store w && defersAddOneTick (applyWrite store w) ws

/-! Concrete data used by the evaluation theorems below. -/

/-- A sample prepared, unprocessed message in private chat "c", due at
time 0. -/
def sampleMessage (i : Nat) : MessageRecord :=
  { id := i, chatId := "c", chatType := ChatType.privateChat, userId := "u", content := "m",
    mediaType := MediaType.text, fileReference := none, processed := false, attempts := 0,
    processingDate := 0, createdAt := 0, prepared := true }

/-- Environment with the reference ceilings spelled out. -/
def envDefault : Env :=
  { TELEGRAM_API_TOKEN := "t", TELEGRAM_API_URL := "a",
    RATE_LIMIT_PRIVATE := "1", RATE_LIMIT_CHANNEL := "20", RATE_LIMIT_GLOBAL := "30" }

/-- Environment whose private ceiling is configured as zero. -/
def envZeroPrivate : Env :=
  { TELEGRAM_API_TOKEN := "t", TELEGRAM_API_URL := "a",
    RATE_LIMIT_PRIVATE := "0", RATE_LIMIT_CHANNEL := "20", RATE_LIMIT_GLOBAL := "30" }

/-- Environment whose private ceiling is configured as -1. -/
def envNegPrivate : Env :=
  { TELEGRAM_API_TOKEN := "t", TELEGRAM_API_URL := "a",
    RATE_LIMIT_PRIVATE := "-1", RATE_LIMIT_CHANNEL := "20", RATE_LIMIT_GLOBAL := "30" }

/-- Environment with a small global ceiling of 5, used to exercise the
fill-up loop on a small store. -/
def envGlobalFive : Env :=
  { TELEGRAM_API_TOKEN := "t", TELEGRAM_API_URL := "a",
    RATE_LIMIT_PRIVATE := "1", RATE_LIMIT_CHANNEL := "20", RATE_LIMIT_GLOBAL := "5" }

/-- A store of three identical-chat messages, all due at 0. -/
def sampleStore : List MessageRecord :=
  [sampleMessage 1, sampleMessage 2, sampleMessage 3]

/-- A store holding one message that is not yet prepared, invisible to
the dispatch queries. -/
def unpreparedStore : List MessageRecord :=
  [{ sampleMessage 4 with prepared := false }]

/-- The tick of the duplicate-selection scenario: global ceiling 5,
three same-chat private messages due at 0, queried at time 40000; the
transport succeeds exactly for the send at position 1 of the selected
list, and Date.now() in the outcome loop reads 50000. -/
def dupTick : TickResult :=
  processTick envGlobalFive sampleStore 40000 (fun i _ => i = 1) (fun _ => 50000) 50

/-! Basic lemmas about the sort and the grouping. -/

theorem sortByDue_perm (l : List MessageRecord) : List.Perm (sortByDue l) l :=
  List.perm_insertionSort _ l

theorem mem_sortByDue {x : MessageRecord} {l : List MessageRecord} :
    x ∈ sortByDue l ↔ x ∈ l :=
  (sortByDue_perm l).mem_iff

theorem length_sortByDue (l : List MessageRecord) : (sortByDue l).length = l.length :=
  (sortByDue_perm l).length_eq

theorem allowedOf_append_extraOf (config : Config) (g : List MessageRecord) :
    allowedOf config g ++ extraOf config g = sortByDue g :=
  List.take_append_drop _ _

theorem chatId_of_mem_groupOf {x : MessageRecord} {messages : List MessageRecord} {c : String}
    (h : x ∈ groupOf messages c) : x.chatId = c := by
  have := List.of_mem_filter h
  simpa using this

theorem chatId_of_mem_allowedOf {x : MessageRecord} {config : Config}
    {messages : List MessageRecord} {c : String}
    (h : x ∈ allowedOf config (groupOf messages c)) : x.chatId = c := by
  have hx : x ∈ sortByDue (groupOf messages c) := List.mem_of_mem_take h
  exact chatId_of_mem_groupOf (mem_sortByDue.mp hx)

theorem mem_chatKeysAux_spec {seen : List String} {messages : List MessageRecord} {c : String}
    (h : c ∈ chatKeysAux seen messages) : c ∉ seen ∧ ∃ m, m ∈ messages ∧ m.chatId = c := by
  induction messages generalizing seen with
  | nil => cases h
  | cons m rest ih =>
    rw [chatKeysAux] at h
    by_cases hs : seen.contains m.chatId
    · rw [if_pos hs] at h
      obtain ⟨h1, x, hx, hxc⟩ := ih h
      exact ⟨h1, x, List.mem_cons_of_mem m hx, hxc⟩
    · rw [if_neg hs] at h
      rcases List.mem_cons.mp h with h1 | h2
      · subst h1
        exact ⟨by simpa using hs, m, List.mem_cons_self m rest, rfl⟩
      · obtain ⟨h1, x, hx, hxc⟩ := ih h2
        exact ⟨fun hc => h1 (List.mem_cons_of_mem _ hc), x, List.mem_cons_of_mem m hx, hxc⟩

theorem chatId_mem_chatKeysAux {m : MessageRecord} {messages : List MessageRecord}
    {seen : List String} (h : m ∈ messages) (hs : m.chatId ∉ seen) :
    m.chatId ∈ chatKeysAux seen messages := by
  induction messages generalizing seen with
  | nil => cases h
  | cons x rest ih =>
    rw [chatKeysAux]
    by_cases hx : seen.contains x.chatId
    · rw [if_pos hx]
      rcases List.mem_cons.mp h with h1 | h2
      · subst h1; exact absurd (by simpa using hx) hs
      · exact ih h2 hs
    · rw [if_neg hx]
      by_cases hmx : m.chatId = x.chatId
      · rw [hmx]; exact List.mem_cons_self _ _
      · rcases List.mem_cons.mp h with h1 | h2
        · subst h1; exact absurd rfl hmx
        · refine List.mem_cons_of_mem _ (ih h2 ?_)
          intro hc
          rcases List.mem_cons.mp hc with h3 | h4
          · exact hmx h3
          · exact hs h4

theorem chatKeysAux_nodup (seen : List String) (messages : List MessageRecord) :
    (chatKeysAux seen messages).Nodup := by
  induction messages generalizing seen with
  | nil => exact List.nodup_nil
  | cons m rest ih =>
    rw [chatKeysAux]
    by_cases hs : seen.contains m.chatId
    · rw [if_pos hs]; exact ih seen
    · rw [if_neg hs]
      refine List.nodup_cons.mpr ⟨?_, ih _⟩
      intro hmem
      exact (mem_chatKeysAux_spec hmem).1 (List.mem_cons_self _ _)

theorem exists_mem_of_mem_chatKeys {messages : List MessageRecord} {c : String}
    (h : c ∈ chatKeys messages) : ∃ m, m ∈ messages ∧ m.chatId = c :=
  (mem_chatKeysAux_spec h).2

theorem chatId_mem_chatKeys {m : MessageRecord} {messages : List MessageRecord}
    (h : m ∈ messages) : m.chatId ∈ chatKeys messages :=
  chatId_mem_chatKeysAux h (List.not_mem_nil _)

theorem chatKeys_nodup (messages : List MessageRecord) : (chatKeys messages).Nodup :=
  chatKeysAux_nodup [] messages

theorem groupOf_eq_nil_of_not_mem_chatKeys {messages : List MessageRecord} {c : String}
    (h : c ∉ chatKeys messages) : groupOf messages c = [] := by
  by_contra hne
  obtain ⟨x, hx⟩ := List.exists_mem_of_ne_nil _ hne
  exact h (chatId_of_mem_groupOf hx ▸ chatId_mem_chatKeys (List.mem_of_mem_filter hx))

/-! Lemmas about flatMap used to take the per-group results apart. -/

theorem flatMap_congr_of_mem {α β : Type} {l : List α} {f g : α → List β}
    (h : ∀ x ∈ l, f x = g x) : l.flatMap f = l.flatMap g := by
  induction l with
  | nil => rfl
  | cons a l ih =>
    simp only [List.flatMap_cons]
    rw [h a (List.mem_cons_self a l), ih (fun x hx => h x (List.mem_cons_of_mem a hx))]

theorem flatMap_perm_of_mem {α β : Type} {l : List α} {f g : α → List β}
    (h : ∀ x ∈ l, List.Perm (f x) (g x)) : List.Perm (l.flatMap f) (l.flatMap g) := by
  induction l with
  | nil => exact List.Perm.refl _
  | cons a l ih =>
    simp only [List.flatMap_cons]
    exact List.Perm.append (h a (List.mem_cons_self a l))
      (ih (fun x hx => h x (List.mem_cons_of_mem a hx)))

theorem flatMap_append_perm {α β : Type} (l : List α) (f g : α → List β) :
    List.Perm (l.flatMap f ++ l.flatMap g) (l.flatMap (fun x => f x ++ g x)) := by
  induction l with
  | nil => exact List.Perm.refl _
  | cons a l ih =>
    simp only [List.flatMap_cons, List.append_assoc]
    refine List.Perm.append_left (f a) ?_
    exact (List.perm_append_comm_assoc _ _ _).trans (List.Perm.append_left (g a) ih)

theorem filter_flatMap {α β : Type} (l : List α) (f : α → List β) (p : β → Bool) :
    (l.flatMap f).filter p = l.flatMap (fun x => (f x).filter p) := by
  induction l with
  | nil => rfl
  | cons a l ih => simp only [List.flatMap_cons, List.filter_append, ih]

/-! The grouping of applyRateLimit is a partition of its input. -/

theorem groupOf_cons_ne {m : MessageRecord} {rest : List MessageRecord} {c : String}
    (h : ¬(m.chatId = c)) : groupOf (m :: rest) c = groupOf rest c := by
  simp [groupOf, List.filter_cons, h]

theorem chatKeysAux_flatMap_perm (seen : List String) (messages : List MessageRecord) :
    List.Perm ((chatKeysAux seen messages).flatMap (groupOf messages))
      (messages.filter (fun m => !(seen.contains m.chatId))) := by
  induction messages generalizing seen with
  | nil => simp [chatKeysAux]
  | cons m rest ih =>
    rw [chatKeysAux]
    by_cases hs : seen.contains m.chatId
    · rw [if_pos hs]
      have hcongr : (chatKeysAux seen rest).flatMap (groupOf (m :: rest))
          = (chatKeysAux seen rest).flatMap (groupOf rest) := by
        refine flatMap_congr_of_mem ?_
        intro c hc
        have h1 := (mem_chatKeysAux_spec hc).1
        exact groupOf_cons_ne (fun he => h1 (he ▸ (by simpa using hs)))
      have hs' : m.chatId ∈ seen := by simpa using hs
      have hfil : (m :: rest).filter (fun x => !(seen.contains x.chatId))
          = rest.filter (fun x => !(seen.contains x.chatId)) := by
        simp [List.filter_cons, hs']
      rw [hcongr, hfil]
      exact ih seen
    · rw [if_neg hs]
      simp only [List.flatMap_cons]
      have hhead : groupOf (m :: rest) m.chatId
          = m :: rest.filter (fun x => x.chatId == m.chatId) := by
        simp [groupOf, List.filter_cons]
      have hcongr : (chatKeysAux (m.chatId :: seen) rest).flatMap (groupOf (m :: rest))
          = (chatKeysAux (m.chatId :: seen) rest).flatMap (groupOf rest) := by
        refine flatMap_congr_of_mem ?_
        intro c hc
        have h1 := (mem_chatKeysAux_spec hc).1
        exact groupOf_cons_ne (fun he => h1 (he ▸ List.mem_cons_self _ _))
      have hs' : m.chatId ∉ seen := by simpa using hs
      have hfil : (m :: rest).filter (fun x => !(seen.contains x.chatId))
          = m :: rest.filter (fun x => !(seen.contains x.chatId)) := by
        simp [List.filter_cons, hs']
      rw [hhead, hcongr, hfil, List.cons_append]
      refine List.Perm.cons m ?_
      have ih' := ih (m.chatId :: seen)
      have e1 : (rest.filter (fun x => !(seen.contains x.chatId))).filter
          (fun x => x.chatId == m.chatId) = rest.filter (fun x => x.chatId == m.chatId) := by
        rw [List.filter_filter]
        refine List.filter_congr ?_
        intro a _
        by_cases ha : a.chatId = m.chatId
        · simp [ha, hs']
        · simp [ha]
      have e2 : (rest.filter (fun x => !(seen.contains x.chatId))).filter
          (fun x => !(x.chatId == m.chatId))
          = rest.filter (fun x => !((m.chatId :: seen).contains x.chatId)) := by
        rw [List.filter_filter]
        refine List.filter_congr ?_
        intro a _
        by_cases ha : a.chatId = m.chatId
        · simp [ha]
        · simp [ha, Ne.symm ha]
      have hsplit := List.filter_append_perm (fun x => x.chatId == m.chatId)
        (rest.filter (fun x => !(seen.contains x.chatId)))
      rw [e1, e2] at hsplit
      exact (List.Perm.append_left _ ih').trans hsplit

theorem flatMap_groupOf_perm (messages : List MessageRecord) :
    List.Perm ((chatKeys messages).flatMap (groupOf messages)) messages := by
  have h := chatKeysAux_flatMap_perm [] messages
  simpa [chatKeys] using h

/-- Partition lemma for applyRateLimit: selected and deferred together
are a permutation of the input batch. -/
theorem applyRateLimit_perm (messages : List MessageRecord) (env : Env) :
    List.Perm ((applyRateLimit messages env).selected ++ (applyRateLimit messages env).deferred)
      messages := by
  unfold applyRateLimit
  refine List.Perm.trans (flatMap_append_perm _ _ _) ?_
  refine List.Perm.trans (flatMap_perm_of_mem ?_) (flatMap_groupOf_perm messages)
  intro c _
  rw [allowedOf_append_extraOf]
  exact sortByDue_perm _

/-! Per-chat characterization of the selected output. -/

theorem flatMap_if_single {α β : Type} [DecidableEq α] {l : List α} {c : α}
    (hnd : l.Nodup) (hc : c ∈ l) (A : List β) :
    (l.flatMap (fun x => if x = c then A else [])) = A := by
  induction l with
  | nil => cases hc
  | cons k ks ih =>
    have hnd' := List.nodup_cons.mp hnd
    simp only [List.flatMap_cons]
    by_cases hk : k = c
    · rw [if_pos hk]
      have hz : ks.flatMap (fun x => if x = c then A else []) = [] := by
        rw [flatMap_congr_of_mem (g := fun _ => ([] : List β)) ?_]
        · simp
        · intro x hx
          have hxk : x ≠ c := by
            intro hxc
            have hx' : x = k := hxc.trans hk.symm
            exact hnd'.1 (hx' ▸ hx)
          rw [if_neg hxk]
      rw [hz, List.append_nil]
    · rw [if_neg hk]
      have hc' : c ∈ ks := by
        rcases List.mem_cons.mp hc with h | h
        · exact absurd h.symm hk
        · exact h
      rw [List.nil_append]
      exact ih hnd'.2 hc'

theorem selected_filter_eq (messages : List MessageRecord) (env : Env) (c : String) :
    (applyRateLimit messages env).selected.filter (fun m => m.chatId == c)
      = allowedOf (getConfig env) (groupOf messages c) := by
  unfold applyRateLimit
  simp only
  rw [filter_flatMap]
  by_cases hc : c ∈ chatKeys messages
  · have hsplit : ∀ c' ∈ chatKeys messages,
        (allowedOf (getConfig env) (groupOf messages c')).filter (fun m => m.chatId == c)
        = if c' = c then allowedOf (getConfig env) (groupOf messages c) else [] := by
      intro c' _
      by_cases hcc : c' = c
      · subst hcc
        rw [if_pos rfl]
        refine List.filter_eq_self.mpr ?_
        intro a ha
        simp [chatId_of_mem_allowedOf ha]
      · rw [if_neg hcc]
        refine List.filter_eq_nil_iff.mpr ?_
        intro a ha
        simp [chatId_of_mem_allowedOf ha, hcc]
    rw [flatMap_congr_of_mem hsplit]
    exact flatMap_if_single (chatKeys_nodup messages) hc _
  · have hnone : ∀ c' ∈ chatKeys messages,
        (allowedOf (getConfig env) (groupOf messages c')).filter (fun m => m.chatId == c)
        = ([] : List MessageRecord) := by
      intro c' hc'
      refine List.filter_eq_nil_iff.mpr ?_
      intro a ha
      have : c' ≠ c := fun h => hc (h ▸ hc')
      simp [chatId_of_mem_allowedOf ha, this]
    rw [flatMap_congr_of_mem hnone]
    rw [groupOf_eq_nil_of_not_mem_chatKeys hc]
    simp [allowedOf, sortByDue, jsSliceIndex]

/-! Counting lemmas for the per-chat selected part. -/

theorem jsSliceIndex_le (limit : Int) (len : Nat) : jsSliceIndex limit len ≤ len := by
  unfold jsSliceIndex
  split
  · exact min_le_right _ _
  · exact Nat.sub_le _ _

theorem length_allowedOf (config : Config) (g : List MessageRecord) :
    (allowedOf config g).length = jsSliceIndex (chatLimit config g) g.length := by
  unfold allowedOf
  rw [List.length_take, length_sortByDue]
  exact min_eq_left (jsSliceIndex_le _ _)

/-! Claim theorems about the rate limiter and the configuration. -/

/-- C6: for every input batch the rate limiter partitions it: selected
and deferred together are a permutation of the input (so no message is
lost or duplicated across the two outputs) and their lengths add up to
the input length.  The embedding is a pure function of its arguments, so
the no-I/O and no-mutation part of the claim is inherent. -/
theorem applyRateLimit_partition_complete (messages : List MessageRecord) (env : Env) :
    List.Perm ((applyRateLimit messages env).selected ++ (applyRateLimit messages env).deferred)
      messages ∧
    (applyRateLimit messages env).selected.length
      + (applyRateLimit messages env).deferred.length = messages.length := by
  refine ⟨applyRateLimit_perm messages env, ?_⟩
  have h := (applyRateLimit_perm messages env).length_eq
  simpa using h

/-- C3 counterexample: with the private ceiling configured as "-1"
(which getConfig passes through), two same-chat private messages yield
one selected message for that chat, so the count is not at most the
ceiling -1. -/
theorem ceilingInvariant_counterexample :
    (getConfig envNegPrivate).RATE_LIMIT_PRIVATE = -1 ∧
    ((applyRateLimit [sampleMessage 1, sampleMessage 2] envNegPrivate).selected.filter
      (fun m => m.chatId == "c")).length = 1 ∧
    ¬ ((((applyRateLimit [sampleMessage 1, sampleMessage 2] envNegPrivate).selected.filter
      (fun m => m.chatId == "c")).length : Int)
        ≤ (getConfig envNegPrivate).RATE_LIMIT_PRIVATE) := by
  decide

/-- C3 amended: whenever the ceiling that applies to a chat (the channel
ceiling if the group's first message is a channel message, the private
ceiling otherwise) is nonnegative, the number of selected messages of
that chat in a single rate limiter call is at most that ceiling. -/
theorem selected_per_chat_le_ceiling_of_nonneg (messages : List MessageRecord) (env : Env)
    (c : String) (h : 0 ≤ chatLimit (getConfig env) (groupOf messages c)) :
    (((applyRateLimit messages env).selected.filter (fun m => m.chatId == c)).length : Int)
      ≤ chatLimit (getConfig env) (groupOf messages c) := by
  rw [selected_filter_eq, length_allowedOf]
  unfold jsSliceIndex
  rw [if_pos h]
  have h1 : min (chatLimit (getConfig env) (groupOf messages c)).toNat
      (groupOf messages c).length
      ≤ (chatLimit (getConfig env) (groupOf messages c)).toNat := min_le_left _ _
  have h2 : ((min (chatLimit (getConfig env) (groupOf messages c)).toNat
      (groupOf messages c).length : Nat) : Int)
      ≤ ((chatLimit (getConfig env) (groupOf messages c)).toNat : Int) := by
    exact_mod_cast h1
  rwa [Int.toNat_of_nonneg h] at h2

/-- Witness for the amended C3 theorem at a concrete input. -/
theorem selected_per_chat_le_ceiling_witness :
    0 ≤ chatLimit (getConfig envDefault)
      (groupOf [sampleMessage 1, sampleMessage 2] "c") ∧
    ((((applyRateLimit [sampleMessage 1, sampleMessage 2] envDefault).selected.filter
      (fun m => m.chatId == "c")).length : Int)
      ≤ chatLimit (getConfig envDefault) (groupOf [sampleMessage 1, sampleMessage 2] "c")) :=
  ⟨by decide, selected_per_chat_le_ceiling_of_nonneg _ _ _ (by decide)⟩

/-- C7: the backoff policy is min(2 to the n, 256) minutes, monotone
nondecreasing for n at least 1, capped at 256, with the reference values
2, 4, 8 for attempts 1 to 3 and 256 at attempt 9. -/
theorem backoff_min_pow_capped :
    (∀ n, 1 ≤ n → backoffMinutes n = min (2 ^ n) 256) ∧
    (∀ n, 1 ≤ n → backoffMinutes n ≤ backoffMinutes (n + 1)) ∧
    (∀ n, backoffMinutes n ≤ 256) ∧
    backoffMinutes 1 = 2 ∧ backoffMinutes 2 = 4 ∧ backoffMinutes 3 = 8 ∧
    backoffMinutes 9 = 256 := by
  refine ⟨fun n _ => rfl, fun n _ => ?_, fun n => min_le_right _ _, rfl, rfl, rfl, rfl⟩
  exact min_le_min (Nat.pow_le_pow_right (by norm_num) (Nat.le_succ n)) (le_refl 256)

/-- Witness for the backoff theorem at a concrete attempt count. -/
theorem backoff_min_pow_capped_witness :
    1 ≤ 1 ∧ backoffMinutes 1 ≤ backoffMinutes 2 :=
  ⟨by decide, backoff_min_pow_capped.2.1 1 (by decide)⟩

/-- C10: for a chat group the applied ceiling is looked up from the chat
type of the group's first message only, assuming nonnegative configured
ceilings: if that first message is not of channel type (so private,
group or supergroup) the private ceiling applies, and the channel
ceiling applies exactly when it is of channel type; in either case
exactly min(ceiling, group size) messages of the chat are selected. -/
theorem chat_ceiling_by_first_message_class (messages : List MessageRecord) (env : Env)
    (c : String) (m0 : MessageRecord) (rest : List MessageRecord)
    (hg : groupOf messages c = m0 :: rest)
    (hp : 0 ≤ (getConfig env).RATE_LIMIT_PRIVATE)
    (hch : 0 ≤ (getConfig env).RATE_LIMIT_CHANNEL) :
    ((applyRateLimit messages env).selected.filter (fun m => m.chatId == c)).length
      = min (if m0.chatType = ChatType.channel then (getConfig env).RATE_LIMIT_CHANNEL.toNat
          else (getConfig env).RATE_LIMIT_PRIVATE.toNat) (rest.length + 1) := by
  rw [selected_filter_eq, length_allowedOf, hg]
  have hlim : chatLimit (getConfig env) (m0 :: rest)
      = if m0.chatType = ChatType.channel then (getConfig env).RATE_LIMIT_CHANNEL
        else (getConfig env).RATE_LIMIT_PRIVATE := rfl
  rw [hlim]
  unfold jsSliceIndex
  by_cases hm : m0.chatType = ChatType.channel
  · rw [if_pos hm, if_pos hm, if_pos hch]
    simp
  · rw [if_neg hm, if_neg hm, if_pos hp]
    simp

/-- Witness for the first-message-class theorem at a concrete input. -/
theorem chat_ceiling_by_first_message_class_witness :
    ((applyRateLimit [sampleMessage 1, sampleMessage 2] envDefault).selected.filter
      (fun m => m.chatId == "c")).length
      = min (if (sampleMessage 1).chatType = ChatType.channel
          then (getConfig envDefault).RATE_LIMIT_CHANNEL.toNat
          else (getConfig envDefault).RATE_LIMIT_PRIVATE.toNat)
        ([sampleMessage 2].length + 1) :=
  chat_ceiling_by_first_message_class [sampleMessage 1, sampleMessage 2] envDefault "c"
    (sampleMessage 1) [sampleMessage 2] (by decide) (by decide) (by decide)

/-- C5 counterexample: a configured zero private ceiling does not defer
the class; getConfig turns the parsed 0 into the default 1 and a lone
private message is selected, not deferred. -/
theorem failClosed_counterexample :
    parseIntBase10 envZeroPrivate.RATE_LIMIT_PRIVATE = some 0 ∧
    (applyRateLimit [sampleMessage 1] envZeroPrivate).selected = [sampleMessage 1] := by
  decide

/-- C5 amended: a configured zero (or unparsable) ceiling is replaced by
the class default before it reaches the limiter, so such a class is
processed under the default ceiling rather than deferred; a negative
configured ceiling passes through, and by the slice semantics the
limiter then selects all but the last |ceiling| messages of each group
resolving to that ceiling (the whole group is deferred only when the
group size is at most |ceiling|); chats resolving to the channel ceiling
are unaffected by the private ceiling. -/
theorem config_fail_open_behavior :
    (∀ env : Env, parseIntBase10 env.RATE_LIMIT_PRIVATE = some 0 →
      (getConfig env).RATE_LIMIT_PRIVATE = 1) ∧
    (∀ (env : Env) (v : Int), parseIntBase10 env.RATE_LIMIT_PRIVATE = some v → v ≠ 0 →
      (getConfig env).RATE_LIMIT_PRIVATE = v) ∧
    (∀ (messages : List MessageRecord) (env : Env) (c : String),
      chatLimit (getConfig env) (groupOf messages c) < 0 →
      ((applyRateLimit messages env).selected.filter (fun m => m.chatId == c)).length
        = (groupOf messages c).length
          - (-(chatLimit (getConfig env) (groupOf messages c))).toNat) ∧
    (∀ (messages : List MessageRecord) (env env' : Env) (c : String) (m0 : MessageRecord)
      (rest : List MessageRecord), groupOf messages c = m0 :: rest →
      m0.chatType = ChatType.channel →
      (getConfig env).RATE_LIMIT_CHANNEL = (getConfig env').RATE_LIMIT_CHANNEL →
      (applyRateLimit messages env).selected.filter (fun m => m.chatId == c)
        = (applyRateLimit messages env').selected.filter (fun m => m.chatId == c)) := by
  refine ⟨?_, ?_, ?_, ?_⟩
  · intro env h
    unfold getConfig
    rw [h]
    rfl
  · intro env v h hv
    unfold getConfig
    rw [h]
    simp [jsOrNum, hv]
  · intro messages env c h
    rw [selected_filter_eq, length_allowedOf]
    unfold jsSliceIndex
    rw [if_neg (not_le.mpr h)]
  · intro messages env env' c m0 rest hg hm hcc
    rw [selected_filter_eq, selected_filter_eq]
    unfold allowedOf
    rw [hg]
    have h1 : chatLimit (getConfig env) (m0 :: rest) = (getConfig env).RATE_LIMIT_CHANNEL := by
      have : chatLimit (getConfig env) (m0 :: rest)
          = if m0.chatType = ChatType.channel then (getConfig env).RATE_LIMIT_CHANNEL
            else (getConfig env).RATE_LIMIT_PRIVATE := rfl
      rw [this, if_pos hm]
    have h2 : chatLimit (getConfig env') (m0 :: rest) = (getConfig env').RATE_LIMIT_CHANNEL := by
      have : chatLimit (getConfig env') (m0 :: rest)
          = if m0.chatType = ChatType.channel then (getConfig env').RATE_LIMIT_CHANNEL
            else (getConfig env').RATE_LIMIT_PRIVATE := rfl
      rw [this, if_pos hm]
    rw [h1, h2, hcc]

/-- Witness for the fail-open configuration theorem at concrete inputs. -/
theorem config_fail_open_behavior_witness :
    parseIntBase10 envZeroPrivate.RATE_LIMIT_PRIVATE = some 0 ∧
    (getConfig envZeroPrivate).RATE_LIMIT_PRIVATE = 1 :=
  ⟨by decide, config_fail_open_behavior.1 envZeroPrivate (by decide)⟩

/-! Lemmas for the fill-up termination bound. -/

theorem selected_length_le (messages : List MessageRecord) (env : Env) :
    (applyRateLimit messages env).selected.length ≤ messages.length := by
  have h := (applyRateLimit_perm messages env).length_eq
  rw [List.length_append] at h
  omega

theorem selected_length_pos (messages : List MessageRecord) (env : Env)
    (hne : messages ≠ [])
    (hp : 1 ≤ (getConfig env).RATE_LIMIT_PRIVATE)
    (hch : 1 ≤ (getConfig env).RATE_LIMIT_CHANNEL) :
    1 ≤ (applyRateLimit messages env).selected.length := by
  obtain ⟨m0, rest, rfl⟩ := List.exists_cons_of_ne_nil hne
  have hmem : m0 ∈ groupOf (m0 :: rest) m0.chatId :=
    List.mem_filter.mpr ⟨List.mem_cons_self _ _, by simp⟩
  obtain ⟨g0, gr, hg⟩ := List.exists_cons_of_ne_nil (List.ne_nil_of_mem hmem)
  have hcl : 1 ≤ chatLimit (getConfig env) (groupOf (m0 :: rest) m0.chatId) := by
    rw [hg]
    have hx : chatLimit (getConfig env) (g0 :: gr)
        = if g0.chatType = ChatType.channel then (getConfig env).RATE_LIMIT_CHANNEL
          else (getConfig env).RATE_LIMIT_PRIVATE := rfl
    rw [hx]
    by_cases hc : g0.chatType = ChatType.channel
    · rw [if_pos hc]; exact hch
    · rw [if_neg hc]; exact hp
  have hgl : 1 ≤ (groupOf (m0 :: rest) m0.chatId).length := by
    rw [hg]; simp
  have hjs : 1 ≤ jsSliceIndex (chatLimit (getConfig env) (groupOf (m0 :: rest) m0.chatId))
      (groupOf (m0 :: rest) m0.chatId).length := by
    unfold jsSliceIndex
    rw [if_pos (by omega)]
    have h1 : 1 ≤ (chatLimit (getConfig env) (groupOf (m0 :: rest) m0.chatId)).toNat := by
      omega
    exact le_min h1 hgl
  have hfl : 1 ≤ ((applyRateLimit (m0 :: rest) env).selected.filter
      (fun m => m.chatId == m0.chatId)).length := by
    rw [selected_filter_eq, length_allowedOf]
    exact hjs
  exact le_trans hfl (List.length_filter_le _ _)

theorem getUnprocessedMessages_length_le (store : List MessageRecord) (currentTime : Nat)
    (limit : Int) (h : 0 ≤ limit) :
    (getUnprocessedMessages store currentTime limit).length ≤ limit.toNat := by
  unfold getUnprocessedMessages sqlLimit
  rw [if_pos h]
  exact List.length_take_le _ _

theorem getUnprocessedMessagesExcluding_length_le (store : List MessageRecord)
    (currentTime : Nat) (excludedIds : List Nat) (limit : Int) (h : 0 ≤ limit) :
    (getUnprocessedMessagesExcluding store currentTime excludedIds limit).length
      ≤ limit.toNat := by
  unfold getUnprocessedMessagesExcluding sqlLimit
  rw [if_pos h]
  exact List.length_take_le _ _

theorem fillUp_spec (env : Env) (currentTime : Nat) (selectedIds : List Nat)
    (hp : 1 ≤ (getConfig env).RATE_LIMIT_PRIVATE)
    (hch : 1 ≤ (getConfig env).RATE_LIMIT_CHANNEL) :
    ∀ (fuel : Nat) (sel store : List MessageRecord),
      sel.length ≤ (getConfig env).RATE_LIMIT_GLOBAL.toNat →
      (getConfig env).RATE_LIMIT_GLOBAL.toNat + 1 ≤ fuel + sel.length →
      (fillUp env currentTime selectedIds fuel sel store).completed = true ∧
      (fillUp env currentTime selectedIds fuel sel store).rounds + sel.length
        ≤ (getConfig env).RATE_LIMIT_GLOBAL.toNat ∧
      (fillUp env currentTime selectedIds fuel sel store).selected.length
        ≤ (getConfig env).RATE_LIMIT_GLOBAL.toNat := by
  intro fuel
  induction fuel with
  | zero =>
    intro sel store h1 h2
    exact absurd h2 (by omega)
  | succ fuel ih =>
    intro sel store h1 h2
    simp only [fillUp]
    by_cases hlt : (sel.length : Int) < (getConfig env).RATE_LIMIT_GLOBAL
    · rw [if_pos hlt]
      by_cases hadd : (getUnprocessedMessagesExcluding store currentTime selectedIds
          ((getConfig env).RATE_LIMIT_GLOBAL - (sel.length : Int))).length = 0
      · rw [if_pos hadd]
        exact ⟨rfl, by simpa using h1, h1⟩
      · rw [if_neg hadd]
        have hanil : getUnprocessedMessagesExcluding store currentTime selectedIds
            ((getConfig env).RATE_LIMIT_GLOBAL - (sel.length : Int)) ≠ [] := by
          intro hn
          exact hadd (by rw [hn]; rfl)
        have hrsel1 := selected_length_pos _ env hanil hp hch
        have hrle := selected_length_le (getUnprocessedMessagesExcluding store currentTime
          selectedIds ((getConfig env).RATE_LIMIT_GLOBAL - (sel.length : Int))) env
        have hql := getUnprocessedMessagesExcluding_length_le store currentTime selectedIds
          ((getConfig env).RATE_LIMIT_GLOBAL - (sel.length : Int)) (by omega)
        have hnew1 : (sel ++ (applyRateLimit (getUnprocessedMessagesExcluding store currentTime
            selectedIds ((getConfig env).RATE_LIMIT_GLOBAL - (sel.length : Int))) env).selected).length
            ≤ (getConfig env).RATE_LIMIT_GLOBAL.toNat := by
          rw [List.length_append]
          omega
        have hnew2 : (getConfig env).RATE_LIMIT_GLOBAL.toNat + 1
            ≤ fuel + (sel ++ (applyRateLimit (getUnprocessedMessagesExcluding store currentTime
            selectedIds ((getConfig env).RATE_LIMIT_GLOBAL - (sel.length : Int))) env).selected).length := by
          rw [List.length_append]
          omega
        obtain ⟨hc, hr, hs⟩ := ih
          (sel ++ (applyRateLimit (getUnprocessedMessagesExcluding store currentTime
            selectedIds ((getConfig env).RATE_LIMIT_GLOBAL - (sel.length : Int))) env).selected)
          (deferAll store (applyRateLimit (getUnprocessedMessagesExcluding store currentTime
            selectedIds ((getConfig env).RATE_LIMIT_GLOBAL - (sel.length : Int))) env).deferred).1
          hnew1 hnew2
        rw [List.length_append] at hr
        refine ⟨hc, ?_, hs⟩
        dsimp only
        omega
    · rw [if_neg hlt]
      exact ⟨rfl, by simpa using h1, h1⟩

/-! Claim theorems about the dispatch tick. -/

/-- C1 evaluation at the failing input: the fill-up queries exclude only
the snapshot of ids selected by the initial rate-limiter pass, so with
global ceiling 5 and three same-chat messages due long before the
current time, later fill-up rounds re-fetch and re-select message 2
(selected in the first fill-up round) and also re-fetch message 3
(deferred earlier in the same tick); the selected list of the tick
contains id 2 four times instead of being duplicate-free. -/
theorem fillUp_reselects_already_selected_id :
    dupTick.selected.map (fun m => m.id) = [1, 2, 2, 2, 2] ∧
    ¬ (dupTick.selected.map (fun m => m.id)).Nodup := by
  decide

/-- C2 evaluation at the failing input: in the duplicate-selection
scenario the send at position 1 (the first copy of message 2) succeeds
and marks the row processed, and the send at position 2 (the second copy
of message 2) fails, so the subsequent retry write mutates the attempts
and processingDate of a row whose processed flag is already true; the
replayed trace violates the terminal-state invariant. -/
theorem retry_write_mutates_processed_row :
    mutationsRespectTerminal sampleStore dupTick.trace = false := by
  decide

/-- C4 counterexample: in the duplicate-selection scenario the eligible
backlog has 3 messages and the global ceiling is 5, so the claimed bound
is ceil(3/5) = 1 fill-up iteration, but the loop runs 4 iterations
(re-selecting the same message until the global ceiling is reached). -/
theorem fillUp_rounds_exceed_ceil_bound :
    (getUnprocessedMessages sampleStore 40000
      (getConfig envGlobalFive).RATE_LIMIT_GLOBAL).length = 3 ∧
    (getConfig envGlobalFive).RATE_LIMIT_GLOBAL = 5 ∧
    dupTick.completed = true ∧
    dupTick.rounds = 4 ∧
    ¬ (dupTick.rounds ≤ (3 + 5 - 1) / 5) := by
  decide

/-- C4 amended: when every per-class ceiling is at least 1 and the
global ceiling is nonnegative, the fill-up loop terminates by its own
condition within globalCeiling + 1 fuel (so in at most globalCeiling
iterations: rounds never exceeds the global ceiling) and the total
number of selected messages across the initial pass plus all fill-up
rounds never exceeds the global ceiling. -/
theorem fillUp_terminates_bounded (env : Env) (store : List MessageRecord) (currentTime : Nat)
    (sendOk : Nat → MessageRecord → Bool) (nowAt : Nat → Nat) (fuel : Nat)
    (hp : 1 ≤ (getConfig env).RATE_LIMIT_PRIVATE)
    (hch : 1 ≤ (getConfig env).RATE_LIMIT_CHANNEL)
    (hG : 0 ≤ (getConfig env).RATE_LIMIT_GLOBAL)
    (hfuel : (getConfig env).RATE_LIMIT_GLOBAL.toNat + 1 ≤ fuel) :
    (processTick env store currentTime sendOk nowAt fuel).completed = true ∧
    (processTick env store currentTime sendOk nowAt fuel).rounds
      ≤ (getConfig env).RATE_LIMIT_GLOBAL.toNat ∧
    (processTick env store currentTime sendOk nowAt fuel).selected.length
      ≤ (getConfig env).RATE_LIMIT_GLOBAL.toNat := by
  simp only [processTick]
  by_cases hb : (getUnprocessedMessages store currentTime
      (getConfig env).RATE_LIMIT_GLOBAL).length = 0
  · rw [if_pos hb]
    exact ⟨rfl, by dsimp only; omega, by simp⟩
  · rw [if_neg hb]
    have hs0le : (applyRateLimit (getUnprocessedMessages store currentTime
        (getConfig env).RATE_LIMIT_GLOBAL) env).selected.length
        ≤ (getConfig env).RATE_LIMIT_GLOBAL.toNat :=
      le_trans (selected_length_le _ _) (getUnprocessedMessages_length_le _ _ _ hG)
    obtain ⟨hc, hr, hs⟩ := fillUp_spec env currentTime
      ((applyRateLimit (getUnprocessedMessages store currentTime
        (getConfig env).RATE_LIMIT_GLOBAL) env).selected.map (fun m => m.id))
      hp hch fuel
      (applyRateLimit (getUnprocessedMessages store currentTime
        (getConfig env).RATE_LIMIT_GLOBAL) env).selected
      (deferAll store (applyRateLimit (getUnprocessedMessages store currentTime
        (getConfig env).RATE_LIMIT_GLOBAL) env).deferred).1
      hs0le (by omega)
    refine ⟨hc, ?_, hs⟩
    dsimp only
    omega

/-- Witness for the fill-up termination bound at a concrete input. -/
theorem fillUp_terminates_bounded_witness :
    (1 ≤ (getConfig envDefault).RATE_LIMIT_PRIVATE ∧
     1 ≤ (getConfig envDefault).RATE_LIMIT_CHANNEL ∧
     0 ≤ (getConfig envDefault).RATE_LIMIT_GLOBAL ∧
     (getConfig envDefault).RATE_LIMIT_GLOBAL.toNat + 1 ≤ 31) ∧
    ((processTick envDefault [sampleMessage 1] 0 (fun _ _ => false)
        (fun _ => 0) 31).completed = true ∧
     (processTick envDefault [sampleMessage 1] 0 (fun _ _ => false) (fun _ => 0) 31).rounds
       ≤ (getConfig envDefault).RATE_LIMIT_GLOBAL.toNat ∧
     (processTick envDefault [sampleMessage 1] 0 (fun _ _ => false)
        (fun _ => 0) 31).selected.length
       ≤ (getConfig envDefault).RATE_LIMIT_GLOBAL.toNat) :=
  ⟨⟨by decide, by decide, by decide, by decide⟩,
   fillUp_terminates_bounded envDefault [sampleMessage 1] 0 (fun _ _ => false) (fun _ => 0) 31
     (by decide) (by decide) (by decide) (by decide)⟩

/-- C9: when the initial store query of a tick returns no eligible
message, the tick leaves the store unchanged, hands no message to the
transport, issues no database write, and the loop's sleep lands exactly
on the next second boundary. -/
theorem empty_query_tick_is_noop (env : Env) (store : List MessageRecord) (currentTime : Nat)
    (sendOk : Nat → MessageRecord → Bool) (nowAt : Nat → Nat) (fuel : Nat)
    (h : getUnprocessedMessages store currentTime (getConfig env).RATE_LIMIT_GLOBAL = []) :
    (processTick env store currentTime sendOk nowAt fuel).store = store ∧
    (processTick env store currentTime sendOk nowAt fuel).selected = [] ∧
    (processTick env store currentTime sendOk nowAt fuel).trace = [] ∧
    (∀ t : Nat, (t + sleepUntilNextSecondDelay t) % 1000 = 0) := by
  have hmain : processTick env store currentTime sendOk nowAt fuel
      = ⟨store, [], 0, true, []⟩ := by
    simp [processTick, h]
  refine ⟨by rw [hmain], by rw [hmain], by rw [hmain], ?_⟩
  intro t
  have ht : t % 1000 < 1000 := Nat.mod_lt _ (by norm_num)
  unfold sleepUntilNextSecondDelay
  omega

/-! Lemmas about row updates, lookups and write traces, used for the
deferral-increment invariant. -/

theorem updateRow_map_id (store : List MessageRecord) (id : Nat) (f : MessageRecord → MessageRecord)
    (hf : ∀ m, (f m).id = m.id) :
    (updateRow store id f).map (fun m => m.id) = store.map (fun m => m.id) := by
  unfold updateRow
  rw [List.map_map]
  refine List.map_congr_left ?_
  intro m _
  by_cases h : m.id = id
  · simp [h, hf]
  · simp [h]

theorem applyWrite_map_id (store : List MessageRecord) (w : DbWrite) :
    (applyWrite store w).map (fun m => m.id) = store.map (fun m => m.id) := by
  cases w with
  | deferDate id d => exact updateRow_map_id store id _ (fun m => rfl)
  | markProcessed id => exact updateRow_map_id store id _ (fun m => rfl)
  | retry id a d => exact updateRow_map_id store id _ (fun m => rfl)

theorem applyWrites_map_id (ws : List DbWrite) : ∀ store : List MessageRecord,
    (applyWrites store ws).map (fun m => m.id) = store.map (fun m => m.id) := by
  induction ws with
  | nil => intro store; rfl
  | cons w ws ih =>
    intro store
    rw [applyWrites, ih, applyWrite_map_id]

theorem applyWrites_append (t1 t2 : List DbWrite) : ∀ store : List MessageRecord,
    applyWrites store (t1 ++ t2) = applyWrites (applyWrites store t1) t2 := by
  induction t1 with
  | nil => intro store; rfl
  | cons w ws ih =>
    intro store
    rw [List.cons_append, applyWrites, applyWrites, ih]

theorem defersAddOneTick_append (t1 t2 : List DbWrite) : ∀ store : List MessageRecord,
    defersAddOneTick store (t1 ++ t2)
      = (defersAddOneTick store t1 && defersAddOneTick (applyWrites store t1) t2) := by
  induction t1 with
  | nil =>
    intro store
    simp [defersAddOneTick, applyWrites]
  | cons w ws ih =>
    intro store
    rw [List.cons_append, defersAddOneTick, defersAddOneTick, applyWrites, ih,
      Bool.and_assoc]

theorem findMsg_updateRow_ne (store : List MessageRecord) (tid : Nat)
    (f : MessageRecord → MessageRecord) (hf : ∀ m, (f m).id = m.id) (id : Nat)
    (hne : id ≠ tid) : findMsg (updateRow store tid f) id = findMsg store id := by
  unfold findMsg updateRow
  induction store with
  | nil => rfl
  | cons m rest ih =>
    simp only [List.map_cons]
    by_cases hm : m.id = tid
    · have hp1 : ((if m.id = tid then f m else m).id == id) = false := by
        rw [if_pos hm]
        simp [hf, hm, Ne.symm hne]
      have hp2 : (m.id == id) = false := by
        simp [hm, Ne.symm hne]
      rw [List.find?_cons_of_neg _ (by simp [hp1]), List.find?_cons_of_neg _ (by simp [hp2])]
      exact ih
    · rw [if_neg hm]
      by_cases hid : m.id = id
      · rw [List.find?_cons_of_pos _ (by simp [hid]), List.find?_cons_of_pos _ (by simp [hid])]
      · rw [List.find?_cons_of_neg _ (by simp [hid]), List.find?_cons_of_neg _ (by simp [hid])]
        exact ih

theorem findMsg_of_mem (store : List MessageRecord) (x : MessageRecord)
    (hnd : (store.map (fun m => m.id)).Nodup) (hx : x ∈ store) :
    findMsg store x.id = some x := by
  unfold findMsg
  induction store with
  | nil => cases hx
  | cons m rest ih =>
    rw [List.map_cons, List.nodup_cons] at hnd
    rcases List.mem_cons.mp hx with h1 | h2
    · subst h1
      rw [List.find?_cons_of_pos _ (by simp)]
    · by_cases hm : m.id = x.id
      · exfalso
        exact hnd.1 (hm ▸ List.mem_map_of_mem (fun m => m.id) h2)
      · rw [List.find?_cons_of_neg _ (by simp [hm])]
        exact ih hnd.2 h2

theorem sqlLimit_sublist (limit : Int) (rows : List MessageRecord) :
    (sqlLimit limit rows).Sublist rows := by
  unfold sqlLimit
  split
  · exact List.take_sublist _ _
  · exact List.Sublist.refl _

theorem mem_getUnprocessedMessages {store : List MessageRecord} {currentTime : Nat}
    {limit : Int} {m : MessageRecord}
    (h : m ∈ getUnprocessedMessages store currentTime limit) : m ∈ store := by
  unfold getUnprocessedMessages at h
  have h1 := (sqlLimit_sublist _ _).subset h
  exact List.mem_of_mem_filter (mem_sortByDue.mp h1)

theorem mem_getUnprocessedMessagesExcluding {store : List MessageRecord} {currentTime : Nat}
    {excludedIds : List Nat} {limit : Int} {m : MessageRecord}
    (h : m ∈ getUnprocessedMessagesExcluding store currentTime excludedIds limit) :
    m ∈ store := by
  unfold getUnprocessedMessagesExcluding at h
  have h1 := (sqlLimit_sublist _ _).subset h
  exact List.mem_of_mem_filter (mem_sortByDue.mp h1)

theorem nodup_ids_sort_filter_limit (store : List MessageRecord) (p : MessageRecord → Bool)
    (limit : Int) (hnd : (store.map (fun m => m.id)).Nodup) :
    ((sqlLimit limit (sortByDue (store.filter p))).map (fun m => m.id)).Nodup := by
  have hfil : ((store.filter p).map (fun m => m.id)).Nodup :=
    ((List.filter_sublist store).map _).nodup hnd
  have hsort : ((sortByDue (store.filter p)).map (fun m => m.id)).Nodup :=
    (((sortByDue_perm _).map _).nodup_iff).mpr hfil
  exact ((sqlLimit_sublist _ _).map _).nodup hsort

theorem nodup_ids_getUnprocessedMessages (store : List MessageRecord) (currentTime : Nat)
    (limit : Int) (hnd : (store.map (fun m => m.id)).Nodup) :
    ((getUnprocessedMessages store currentTime limit).map (fun m => m.id)).Nodup := by
  unfold getUnprocessedMessages
  exact nodup_ids_sort_filter_limit store _ limit hnd

theorem nodup_ids_getUnprocessedMessagesExcluding (store : List MessageRecord)
    (currentTime : Nat) (excludedIds : List Nat) (limit : Int)
    (hnd : (store.map (fun m => m.id)).Nodup) :
    ((getUnprocessedMessagesExcluding store currentTime excludedIds limit).map
      (fun m => m.id)).Nodup := by
  unfold getUnprocessedMessagesExcluding
  exact nodup_ids_sort_filter_limit store _ limit hnd

theorem mem_messages_of_mem_deferred {messages : List MessageRecord} {env : Env}
    {m : MessageRecord} (h : m ∈ (applyRateLimit messages env).deferred) : m ∈ messages :=
  (applyRateLimit_perm messages env).mem_iff.mp (List.mem_append_right _ h)

theorem nodup_ids_deferred (messages : List MessageRecord) (env : Env)
    (hnd : (messages.map (fun m => m.id)).Nodup) :
    ((applyRateLimit messages env).deferred.map (fun m => m.id)).Nodup := by
  have hperm := (applyRateLimit_perm messages env).map (fun m => m.id)
  rw [List.map_append] at hperm
  exact (hperm.nodup_iff.mpr hnd).of_append_right

theorem deferAll_applyWrites (ms : List MessageRecord) : ∀ store : List MessageRecord,
    applyWrites store (deferAll store ms).2 = (deferAll store ms).1 := by
  induction ms with
  | nil => intro store; rfl
  | cons m rest ih =>
    intro store
    rw [deferAll]
    dsimp only
    rw [applyWrites]
    exact ih (updateMessageProcessingDate store m.id (m.processingDate + 1000))

theorem deferAll_defers_ok (ms : List MessageRecord) : ∀ store : List MessageRecord,
    (∀ m ∈ ms, findMsg store m.id = some m) →
    (ms.map (fun m => m.id)).Nodup →
    defersAddOneTick store (deferAll store ms).2 = true := by
  induction ms with
  | nil => intro store _ _; rfl
  | cons m rest ih =>
    intro store h hnd
    rw [List.map_cons, List.nodup_cons] at hnd
    rw [deferAll]
    dsimp only
    rw [defersAddOneTick]
    have hfound := h m (List.mem_cons_self _ _)
    have hhead : deferAddsOneTick store (DbWrite.deferDate m.id (m.processingDate + 1000))
        = true := by
      simp [deferAddsOneTick, hfound]
    rw [hhead, Bool.true_and]
    have hrest : ∀ x ∈ rest,
        findMsg (updateMessageProcessingDate store m.id (m.processingDate + 1000)) x.id
          = some x := by
      intro x hx
      have hne : x.id ≠ m.id := by
        intro he
        exact hnd.1 (he ▸ List.mem_map_of_mem (fun m => m.id) hx)
      unfold updateMessageProcessingDate
      rw [findMsg_updateRow_ne store m.id
        (fun r => { r with processingDate := m.processingDate + 1000 }) (fun _ => rfl) x.id hne]
      exact h x (List.mem_cons_of_mem _ hx)
    exact ih _ hrest hnd.2

theorem applyOutcomes_defers_ok (nowAt : Nat → Nat) :
    ∀ (outcomes : List (MessageRecord × Bool)) (index : Nat) (store st : List MessageRecord),
    defersAddOneTick st (applyOutcomes nowAt index store outcomes).2 = true := by
  intro outcomes
  induction outcomes with
  | nil => intro index store st; rfl
  | cons p rest ih =>
    intro index store st
    obtain ⟨m, success⟩ := p
    rw [applyOutcomes]
    by_cases hsucc : success = true
    · rw [if_pos hsucc]
      dsimp only
      rw [defersAddOneTick]
      have : deferAddsOneTick st (DbWrite.markProcessed m.id) = true := rfl
      rw [this, Bool.true_and]
      exact ih _ _ _
    · rw [if_neg hsucc]
      dsimp only
      rw [defersAddOneTick]
      have : deferAddsOneTick st
          (DbWrite.retry m.id (m.attempts + 1)
            (nowAt index + backoffMinutes (m.attempts + 1) * 60000)) = true := rfl
      rw [this, Bool.true_and]
      exact ih _ _ _

theorem fillUp_trace_spec (env : Env) (currentTime : Nat) (selectedIds : List Nat) :
    ∀ (fuel : Nat) (sel store : List MessageRecord),
      (store.map (fun m => m.id)).Nodup →
      defersAddOneTick store (fillUp env currentTime selectedIds fuel sel store).trace = true ∧
      applyWrites store (fillUp env currentTime selectedIds fuel sel store).trace
        = (fillUp env currentTime selectedIds fuel sel store).store := by
  intro fuel
  induction fuel with
  | zero => intro sel store _; exact ⟨rfl, rfl⟩
  | succ fuel ih =>
    intro sel store hnd
    simp only [fillUp]
    by_cases hlt : (sel.length : Int) < (getConfig env).RATE_LIMIT_GLOBAL
    · rw [if_pos hlt]
      by_cases hadd : (getUnprocessedMessagesExcluding store currentTime selectedIds
          ((getConfig env).RATE_LIMIT_GLOBAL - (sel.length : Int))).length = 0
      · rw [if_pos hadd]
        exact ⟨rfl, rfl⟩
      · rw [if_neg hadd]
        dsimp only
        have hqnd := nodup_ids_getUnprocessedMessagesExcluding store currentTime selectedIds
          ((getConfig env).RATE_LIMIT_GLOBAL - (sel.length : Int)) hnd
        have hdnd := nodup_ids_deferred _ env hqnd
        have hdmem : ∀ m ∈ (applyRateLimit (getUnprocessedMessagesExcluding store currentTime
            selectedIds ((getConfig env).RATE_LIMIT_GLOBAL - (sel.length : Int))) env).deferred,
            findMsg store m.id = some m := by
          intro m hm
          exact findMsg_of_mem store m hnd
            (mem_getUnprocessedMessagesExcluding (mem_messages_of_mem_deferred hm))
        have hA := deferAll_defers_ok _ store hdmem hdnd
        have hB := deferAll_applyWrites ((applyRateLimit (getUnprocessedMessagesExcluding store
          currentTime selectedIds ((getConfig env).RATE_LIMIT_GLOBAL - (sel.length : Int)))
          env).deferred) store
        have hnd1 : ((deferAll store (applyRateLimit (getUnprocessedMessagesExcluding store
            currentTime selectedIds ((getConfig env).RATE_LIMIT_GLOBAL - (sel.length : Int)))
            env).deferred).1.map (fun m => m.id)).Nodup := by
          rw [← hB, applyWrites_map_id]
          exact hnd
        obtain ⟨hC, hD⟩ := ih
          (sel ++ (applyRateLimit (getUnprocessedMessagesExcluding store currentTime
            selectedIds ((getConfig env).RATE_LIMIT_GLOBAL - (sel.length : Int))) env).selected)
          ((deferAll store (applyRateLimit (getUnprocessedMessagesExcluding store currentTime
            selectedIds ((getConfig env).RATE_LIMIT_GLOBAL - (sel.length : Int))) env).deferred).1)
          hnd1
        constructor
        · rw [defersAddOneTick_append, hA, Bool.true_and, hB]
          exact hC
        · rw [applyWrites_append, hB]
          exact hD
    · rw [if_neg hlt]
      exact ⟨rfl, rfl⟩

/-- C8: assuming the store rows carry distinct ids (the primary key),
every deferral write issued by a tick, in the initial pass and in every
fill-up round, persists a new processingDate equal to the row's current
processingDate plus exactly one tick interval of 1000 ms; the replayed
write trace of the tick passes the deferral-increment checker. -/
theorem defer_writes_add_one_tick (env : Env) (store : List MessageRecord) (currentTime : Nat)
    (sendOk : Nat → MessageRecord → Bool) (nowAt : Nat → Nat) (fuel : Nat)
    (hnd : (store.map (fun m => m.id)).Nodup) :
    defersAddOneTick store (processTick env store currentTime sendOk nowAt fuel).trace
      = true := by
  simp only [processTick]
  by_cases hb : (getUnprocessedMessages store currentTime
      (getConfig env).RATE_LIMIT_GLOBAL).length = 0
  · rw [if_pos hb]
    rfl
  · rw [if_neg hb]
    dsimp only
    have hqnd := nodup_ids_getUnprocessedMessages store currentTime
      (getConfig env).RATE_LIMIT_GLOBAL hnd
    have hdnd := nodup_ids_deferred _ env hqnd
    have hdmem : ∀ m ∈ (applyRateLimit (getUnprocessedMessages store currentTime
        (getConfig env).RATE_LIMIT_GLOBAL) env).deferred, findMsg store m.id = some m := by
      intro m hm
      exact findMsg_of_mem store m hnd
        (mem_getUnprocessedMessages (mem_messages_of_mem_deferred hm))
    have hA := deferAll_defers_ok _ store hdmem hdnd
    have hB := deferAll_applyWrites ((applyRateLimit (getUnprocessedMessages store currentTime
      (getConfig env).RATE_LIMIT_GLOBAL) env).deferred) store
    have hnd1 : ((deferAll store (applyRateLimit (getUnprocessedMessages store currentTime
        (getConfig env).RATE_LIMIT_GLOBAL) env).deferred).1.map (fun m => m.id)).Nodup := by
      rw [← hB, applyWrites_map_id]
      exact hnd
    obtain ⟨hC, hD⟩ := fillUp_trace_spec env currentTime
      ((applyRateLimit (getUnprocessedMessages store currentTime
        (getConfig env).RATE_LIMIT_GLOBAL) env).selected.map (fun m => m.id))
      fuel
      (applyRateLimit (getUnprocessedMessages store currentTime
        (getConfig env).RATE_LIMIT_GLOBAL) env).selected
      ((deferAll store (applyRateLimit (getUnprocessedMessages store currentTime
        (getConfig env).RATE_LIMIT_GLOBAL) env).deferred).1)
      hnd1
    rw [defersAddOneTick_append, defersAddOneTick_append, hA, Bool.true_and, hB, hC,
      Bool.true_and, applyWrites_append, hB, hD]
    exact applyOutcomes_defers_ok nowAt _ _ _ _

/-- Witness for the deferral-increment theorem on the concrete
duplicate-selection scenario, whose trace contains five deferral
writes. -/
theorem defer_writes_add_one_tick_witness :
    (sampleStore.map (fun m => m.id)).Nodup ∧
    defersAddOneTick sampleStore dupTick.trace = true :=
  ⟨by decide, defer_writes_add_one_tick envGlobalFive sampleStore 40000 (fun i _ => i = 1)
    (fun _ => 50000) 50 (by decide)⟩

/-- Witness for the empty-query theorem on a store whose only message is
not yet prepared. -/
theorem empty_query_tick_is_noop_witness :
    getUnprocessedMessages unpreparedStore 0
      (getConfig envDefault).RATE_LIMIT_GLOBAL = [] ∧
    ((processTick envDefault unpreparedStore 0 (fun _ _ => false) (fun _ => 0) 1).store
        = unpreparedStore ∧
      (processTick envDefault unpreparedStore 0 (fun _ _ => false) (fun _ => 0) 1).selected = [] ∧
      (processTick envDefault unpreparedStore 0 (fun _ _ => false) (fun _ => 0) 1).trace = [] ∧
      (∀ t : Nat, (t + sleepUntilNextSecondDelay t) % 1000 = 0)) :=
  ⟨by decide, empty_query_tick_is_noop envDefault unpreparedStore 0 (fun _ _ => false)
    (fun _ => 0) 1 (by decide)⟩

end Clotic
